import Mathlib

/-!
Verification of the extension-lifecycle manager of the Punchax bot
(`bot.py` and `cogs/admin.py`).

The pure data flow of the Python source is embedded shallowly:

* Python strings become `String`, Python's substring test `pat in s`,
  `s.endswith(pat)`, `s.replace(old, new)` and the slice `s[:-3]` become the
  executable helpers below;
* the extension registry (`bot.extensions`, a dict keyed by extension name)
  becomes a duplicate-free `List String` of active identifiers;
* the host module system (`discord.py`'s `load_extension` /
  `unload_extension` / `reload_extension` primitives, which are not part of
  this repository) is modelled from the spec, §4.3/§6: an extension's own
  setup or teardown may raise, everything else is deterministic state
  manipulation of the registry;
* `async` functions become pure state-passing functions (the spec's §5
  serializes all lifecycle operations, so no interleaving is modelled);
* a raised exception becomes an explicit error value.
-/

namespace Punchax

/-! ## String helpers mirroring the Python primitives used by the source -/

/-- Python's substring test `pat in s`, on character lists: `pat` occurs
contiguously in the list. -/
def charsContains (pat : List Char) : List Char → Bool
  | [] => pat.isEmpty
  | c :: rest => pat.isPrefixOf (c :: rest) || charsContains pat rest

/-- Python's `pat in s` for strings. -/
def strContains (s pat : String) : Bool :=
  charsContains pat.data s.data

/-- Python's `s.endswith(pat)`. -/
def strEndsWith (s pat : String) : Bool :=
  pat.data.isSuffixOf s.data

/-- Python's slice `s[:-n]`: everything but the last `n` characters. -/
def strDropRight (s : String) (n : Nat) : String :=
  ⟨s.data.take (s.data.length - n)⟩

/-- Python's `s.replace(old, new)` on character lists: left-to-right
replacement of non-overlapping occurrences.  The fuel argument (always
instantiated with the length of the list, which bounds the number of steps)
keeps the recursion structural so that the function evaluates by `decide`. -/
def replaceCharsFuel (pat rep : List Char) : Nat → List Char → List Char
  | 0, l => l
  | _ + 1, [] => []
  | fuel + 1, c :: rest =>
    if pat.isPrefixOf (c :: rest) then
      rep ++ replaceCharsFuel pat rep fuel ((c :: rest).drop pat.length)
    else
      c :: replaceCharsFuel pat rep fuel rest

/-- Python's `s.replace(old, new)` for strings (used with non-empty `old`). -/
def strReplace (s pat rep : String) : String :=
  ⟨replaceCharsFuel pat.data rep.data s.data.length s.data⟩

/-! ## Discovery (`bot.py`, `get_all_extensions` / `get_allowed_extensions`)

A directory listing is abstracted as a partial map from directory names to
file-name lists; a missing directory makes `os.listdir` raise (spec §4.1:
`DiscoveryError`). -/

/-- `IGNORED_EXTENSIONS` from `bot.py`. -/
def IGNORED_EXTENSIONS : List String := ["!", "__init__"]

/-- `EXTENSIONS_DIRS` from `bot.py`. -/
def EXTENSIONS_DIRS : List String := ["./cogs", "./cogs/minigames"]

/-- `os.listdir`: `none` means the directory does not exist and listing it
raises. -/
abbrev FileSystem := String → Option (List String)

/-- `ext_dir.replace("./", "").replace("/", ".")` from `bot.py`.  (In the
source this rebinds the loop variable, but the normalization is idempotent:
its result contains no `/`, so re-applying it changes nothing.) -/
def normalizeDir (d : String) : String :=
  strReplace (strReplace d "./" "") "/" "."

/-- `f"{ext_dir}.{filename[:-3]}"`: the identifier derived from a directory
and a file name. -/
def mkExt (d f : String) : String :=
  normalizeDir d ++ "." ++ strDropRight f 3

/-- Error taxonomy of the spec, §7.  `notLoaded` (unloading an inactive
identifier) is uncategorized there, hence rendered as `UnexpectedError`. -/
inductive ErrKind where
  | discoveryError
  | alreadyLoaded
  | loadError
  | unloadError
  | notLoaded
  deriving DecidableEq, Repr

/-- The user-visible error-kind name (`e.__class__.__name__` in the source),
using the spec's §7 taxonomy names. -/
def kindName : ErrKind → String
  | .discoveryError => "DiscoveryError"
  | .alreadyLoaded => "AlreadyLoadedError"
  | .loadError => "LoadError"
  | .unloadError => "UnloadError"
  | .notLoaded => "UnexpectedError"

/-- A raised exception: its kind and its message. -/
structure ExtError where
  kind : ErrKind
  msg : String
  deriving DecidableEq, Repr

/-- `Punchax.get_all_extensions` (`bot.py` lines 21-30): the unfiltered
discovery variant.  Keeps `.py` files other than the exact name
`__init__.py`; raises on a missing directory. -/
def get_all_extensions (fs : FileSystem) : List String → Except ExtError (List String)
  | [] => Except.ok []
  | d :: rest =>
    match fs d with
    | none => Except.error ⟨ErrKind.discoveryError, d⟩
    | some files =>
      match get_all_extensions fs rest with
      | Except.error e => Except.error e
      | Except.ok more =>
        Except.ok
          (((files.filter
              (fun f => strEndsWith f ".py" && !(f == "__init__.py"))).map
            (fun f => mkExt d f)) ++ more)

/-- `Punchax.get_allowed_extensions` (`bot.py` lines 32-42): the filtered
discovery variant.  Keeps `.py` files whose name contains none of the ignore
substrings; raises on a missing directory. -/
def get_allowed_extensions (fs : FileSystem) (ignored : List String) :
    List String → Except ExtError (List String)
  | [] => Except.ok []
  | d :: rest =>
    match fs d with
    | none => Except.error ⟨ErrKind.discoveryError, d⟩
    | some files =>
      match get_allowed_extensions fs ignored rest with
      | Except.error e => Except.error e
      | Except.ok more =>
        Except.ok
          (((files.filter
              (fun f => strEndsWith f ".py" &&
                !(ignored.any (fun ig => strContains f ig)))).map
            (fun f => mkExt d f)) ++ more)

/-! ## Registry and lifecycle primitives

The registry is `bot.extensions` (dict keyed by extension identifier): a
duplicate-free list of active identifiers.  The primitives
`load_extension` / `unload_extension` / `reload_extension` live in the host
module system (`discord.py`), outside this repository; they are modelled
from the spec.  Each returns the registry after the call together with the
exception it raised, if any (`none` = success). -/

abbrev Registry := List String

/-- Modelled from the spec (§4.3/§6): the host module system's only
unspecified behaviour is whether a given extension's own setup
(`loadErr`) or teardown (`unloadErr`) raises, and with what message;
`some m` means it raises with message `m`. -/
structure HostBehavior where
  loadErr : String → Option String
  unloadErr : String → Option String

/-- Modelled from the spec (§4.3 `load(id)`): fails with `AlreadyLoadedError`
if `id` is active (registry unchanged), with `LoadError` if the extension's
own initialization raises (registry unchanged); on success inserts `id`. -/
def load_extension (h : HostBehavior) (reg : Registry) (ext : String) :
    Registry × Option ExtError :=
  if ext ∈ reg then (reg, some ⟨ErrKind.alreadyLoaded, ext⟩)
  else
    match h.loadErr ext with
    | some m => (reg, some ⟨ErrKind.loadError, m⟩)
    | none => (reg ++ [ext], none)

/-- Modelled from the spec (§4.3 `unload(id)`): fails with `UnloadError` if
teardown raises, leaving `id` present; on success removes `id`.  Unloading
an inactive identifier fails with the registry unchanged. -/
def unload_extension (h : HostBehavior) (reg : Registry) (ext : String) :
    Registry × Option ExtError :=
  if ext ∈ reg then
    match h.unloadErr ext with
    | some m => (reg, some ⟨ErrKind.unloadError, m⟩)
    | none => (reg.erase ext, none)
  else (reg, some ⟨ErrKind.notLoaded, ext⟩)

/-- Modelled from the spec (§4.3 `reload(id)`): `unload(id)` then `load(id)`,
sequentially, with no rollback when the load step fails after a successful
unload. -/
def reload_extension (h : HostBehavior) (reg : Registry) (ext : String) :
    Registry × Option ExtError :=
  match unload_extension h reg ext with
  | (reg1, some e) => (reg1, some e)
  | (reg1, none) => load_extension h reg1 ext

/-- `_ExtensionState` from `cogs/admin.py` lines 31-34. -/
inductive _ExtensionState where
  | loaded
  | unloaded
  | reloaded
  deriving DecidableEq, Repr

/-- `Admin.reload_or_load_extension` (`cogs/admin.py` lines 84-92): try
`load_extension`; on `ExtensionAlreadyLoaded` (and only then) fall back to
`reload_extension`.  Any other exception propagates. -/
def reload_or_load_extension (h : HostBehavior) (reg : Registry) (ext : String) :
    Registry × Except ExtError _ExtensionState :=
  match load_extension h reg ext with
  | (reg1, none) => (reg1, Except.ok _ExtensionState.loaded)
  | (reg1, some e) =>
    if e.kind = ErrKind.alreadyLoaded then
      match reload_extension h reg1 ext with
      | (reg2, none) => (reg2, Except.ok _ExtensionState.reloaded)
      | (reg2, some e2) => (reg2, Except.error e2)
    else (reg1, Except.error e)

/-- `Punchax.init_extensions` (`bot.py` lines 44-51): load each discovered
extension in turn; the first exception is logged and re-raised, stopping the
loop.  The result is the registry at that point and the re-raised exception,
if any. -/
def init_extensions (h : HostBehavior) : Registry → List String → Registry × Option ExtError
  | reg, [] => (reg, none)
  | reg, ext :: rest =>
    match load_extension h reg ext with
    | (reg1, none) => init_extensions h reg1 rest
    | (reg1, some e) => (reg1, some e)

/-! ## Reconciliation (`Admin._reload_all`, `cogs/admin.py` lines 131-163) -/

/-- The per-identifier outcome category of one reconciliation pass (the
spec's `OutcomeRecord` category; in the source, which of the four report
lists the identifier is appended to). -/
inductive Category where
  | loaded
  | unloaded
  | reloaded
  | failed (e : ExtError)
  deriving DecidableEq, Repr

/-- One `OutcomeRecord`: the identifier touched and its category. -/
abbrev Outcome := String × Category

/-- `future_unload` (`cogs/admin.py` line 140): the active identifiers that
are not in the desired (filtered-discovery) list. -/
def toUnload (reg : Registry) (desired : List String) : List String :=
  reg.filter (fun e => !decide (e ∈ desired))

/-- The first loop of `_reload_all` (lines 141-146): unload each identifier
of `future_unload`, recording `unloaded` on success and `failed` on an
exception. -/
def unloadPass (h : HostBehavior) : Registry → List String → Registry × List Outcome
  | reg, [] => (reg, [])
  | reg, ext :: rest =>
    match unload_extension h reg ext with
    | (reg1, none) =>
      ((unloadPass h reg1 rest).1, (ext, Category.unloaded) :: (unloadPass h reg1 rest).2)
    | (reg1, some e) =>
      ((unloadPass h reg1 rest).1, (ext, Category.failed e) :: (unloadPass h reg1 rest).2)

/-- The second loop of `_reload_all` (lines 148-158): `reload_or_load` each
desired identifier, recording `failed` on an exception, otherwise `loaded`
or `reloaded` according to the returned state (the source's `if`/`elif`
records nothing for an `unloaded` state, which never occurs). -/
def loadPass (h : HostBehavior) : Registry → List String → Registry × List Outcome
  | reg, [] => (reg, [])
  | reg, ext :: rest =>
    match reload_or_load_extension h reg ext with
    | (reg1, Except.error e) =>
      ((loadPass h reg1 rest).1, (ext, Category.failed e) :: (loadPass h reg1 rest).2)
    | (reg1, Except.ok _ExtensionState.loaded) =>
      ((loadPass h reg1 rest).1, (ext, Category.loaded) :: (loadPass h reg1 rest).2)
    | (reg1, Except.ok _ExtensionState.reloaded) =>
      ((loadPass h reg1 rest).1, (ext, Category.reloaded) :: (loadPass h reg1 rest).2)
    | (reg1, Except.ok _ExtensionState.unloaded) => loadPass h reg1 rest

/-- One reconciliation pass of `_reload_all` over an already-computed desired
list: unload `future_unload`, then `reload_or_load` every desired
identifier; outcomes are recorded in processing order. -/
def reconcile (h : HostBehavior) (reg : Registry) (desired : List String) :
    Registry × List Outcome :=
  ((loadPass h (unloadPass h reg (toUnload reg desired)).1 desired).1,
    (unloadPass h reg (toUnload reg desired)).2 ++
      (loadPass h (unloadPass h reg (toUnload reg desired)).1 desired).2)

/-- A failed item of the report (`cogs/admin.py` lines 146 and 152):
`` f"`{extension}`: `{e.__class__.__name__}`" ``. -/
def failedItem (ext : String) (e : ExtError) : String :=
  "`" ++ ext ++ "`: `" ++ kindName e.kind ++ "`"

/-- The `failed` list of the rendered report: the failed outcomes in
processing order, formatted as in the source. -/
def failedStrings (outs : List Outcome) : List String :=
  outs.filterMap (fun p =>
    match p.2 with
    | Category.failed e => some (failedItem p.1 e)
    | _ => none)

/-- `_reload_all` including its discovery step (line 133): discovery runs
before any transition, and a discovery exception propagates out of the
command body. -/
def reload_all (fs : FileSystem) (ignored dirs : List String) (h : HostBehavior)
    (reg : Registry) : Except ExtError (Registry × List Outcome) :=
  match get_allowed_extensions fs ignored dirs with
  | Except.error e => Except.error e
  | Except.ok desired => Except.ok (reconcile h reg desired)

/-- A reply of the command layer: either a rendered outcome report or an
error line. -/
inductive CommandReply where
  | report (reg : Registry) (outs : List Outcome)
  | errorText (s : String)
  deriving Repr

/-- Modelled from the spec (§7): the error-reporting boundary of the command
layer (the repository's `cogs/error.py` handler, which is not among the
provided sources) renders an exception that escapes a command body as
`<ErrorKind>: <message>` instead of dropping it. -/
def reload_all_command (fs : FileSystem) (ignored dirs : List String)
    (h : HostBehavior) (reg : Registry) : CommandReply :=
  match reload_all fs ignored dirs h reg with
  | Except.ok (reg1, outs) => CommandReply.report reg1 outs
  | Except.error e => CommandReply.errorText (kindName e.kind ++ ": " ++ e.msg)

/-- The item format of the `cogs list` report (`cogs/admin.py` lines
172-173): `` f"`{ext}`" ``. -/
def fmtTick (ext : String) : String :=
  "`" ++ ext ++ "`"

/-- `Admin._cogs_list` (`cogs/admin.py` lines 169-178): list every currently
active identifier as loaded and every discovered-but-inactive identifier as
unloaded. -/
def cogs_list (fs : FileSystem) (dirs : List String) (reg : Registry) :
    Except ExtError (List String × List String) :=
  match get_all_extensions fs dirs with
  | Except.error e => Except.error e
  | Except.ok allExts =>
    Except.ok
      (reg.map fmtTick,
        (allExts.filter (fun e => !decide (e ∈ reg))).map fmtTick)

/-! ## Concrete hosts and directory listings used as test inputs -/

/-- A host on which no extension's setup or teardown ever raises. -/
def hostNone : HostBehavior := ⟨fun _ => none, fun _ => none⟩

/-- A host on which `cogs.a`'s setup raises with message `boom` and
everything else succeeds. -/
def hostBoom : HostBehavior :=
  ⟨fun e => if e = "cogs.a" then some "boom" else none, fun _ => none⟩

/-- The spec's "no external state change" reading for §8.6: between the two
passes nothing starts failing — no extension's setup or teardown raises. -/
def hostOk (h : HostBehavior) : Prop :=
  ∀ e, h.loadErr e = none ∧ h.unloadErr e = none

/-- A directory tree whose only candidate file is an `__init__.py`. -/
def fsInit : FileSystem := fun d =>
  if d = "./cogs" then some ["__init__.py"] else none

/-- A directory tree in which two distinct candidate files derive the same
identifier: `minigames!.y.py` under `./cogs` and `y.py` under
`./cogs/minigames!` both yield `cogs.minigames!.y`. -/
def fsColl : FileSystem := fun d =>
  if d = "./cogs" then some ["minigames!.y.py"]
  else if d = "./cogs/minigames!" then some ["y.py"]
  else none

/-- A directory tree with a single ordinary candidate file. -/
def fsOne : FileSystem := fun d =>
  if d = "./cogs" then some ["admin.py"] else none

/-- A directory tree in which no configured directory exists. -/
def fsNone : FileSystem := fun _ => none

/-! ## Basic lemmas about the string helpers -/

theorem charsContains_nil (l : List Char) : charsContains [] l = true := by
  induction l with
  | nil => rfl
  | cons c rest ih => simp [charsContains, List.isPrefixOf]

theorem isPrefixOf_self_append (l t : List Char) : l.isPrefixOf (l ++ t) = true := by
  induction l with
  | nil => simp [List.isPrefixOf]
  | cons c rest ih => simp [List.isPrefixOf, ih]

/-- A contiguous occurrence is found by `charsContains`. -/
theorem charsContains_middle (a pat b : List Char) :
    charsContains pat (a ++ (pat ++ b)) = true := by
  induction a with
  | nil =>
    cases pat with
    | nil => simp [charsContains_nil b]
    | cons p pt => simp [charsContains, isPrefixOf_self_append]
  | cons x a' ih => simp [charsContains, ih]

theorem strData_append (s t : String) : (s ++ t).data = s.data ++ t.data := by
  cases s; cases t; rfl

theorem fmtTick_inj {a b : String} (h : fmtTick a = fmtTick b) : a = b := by
  have hd : ('`' :: a.data) ++ ['`'] = ('`' :: b.data) ++ ['`'] := by
    have := congrArg String.data h
    simpa [fmtTick, strData_append] using this
  have : a.data = b.data := by
    have h2 := List.append_cancel_right hd
    exact List.tail_eq_of_cons_eq h2
  cases a; cases b; exact congrArg String.mk this

/-! ## Case lemmas for the lifecycle primitives -/

section OpLemmas

variable (h : HostBehavior) (reg : Registry) (ext : String)

theorem load_of_mem (hm : ext ∈ reg) :
    load_extension h reg ext = (reg, some ⟨ErrKind.alreadyLoaded, ext⟩) := by
  simp [load_extension, hm]

theorem load_of_fail {m : String} (hm : ext ∉ reg) (he : h.loadErr ext = some m) :
    load_extension h reg ext = (reg, some ⟨ErrKind.loadError, m⟩) := by
  simp [load_extension, hm, he]

theorem load_of_ok (hm : ext ∉ reg) (he : h.loadErr ext = none) :
    load_extension h reg ext = (reg ++ [ext], none) := by
  simp [load_extension, hm, he]

theorem unload_of_not_mem (hm : ext ∉ reg) :
    unload_extension h reg ext = (reg, some ⟨ErrKind.notLoaded, ext⟩) := by
  simp [unload_extension, hm]

theorem unload_of_fail {m : String} (hm : ext ∈ reg) (he : h.unloadErr ext = some m) :
    unload_extension h reg ext = (reg, some ⟨ErrKind.unloadError, m⟩) := by
  simp [unload_extension, hm, he]

theorem unload_of_ok (hm : ext ∈ reg) (he : h.unloadErr ext = none) :
    unload_extension h reg ext = (reg.erase ext, none) := by
  simp [unload_extension, hm, he]

theorem unload_fst_subset : (unload_extension h reg ext).1 ⊆ reg := by
  by_cases hm : ext ∈ reg
  · cases he : h.unloadErr ext with
    | none =>
      rw [unload_of_ok h reg ext hm he]
      exact fun x hx => List.erase_subset _ _ hx
    | some m => rw [unload_of_fail h reg ext hm he]; exact fun _ hx => hx
  · rw [unload_of_not_mem h reg ext hm]; exact fun _ hx => hx

theorem unload_fst_nodup (hnd : reg.Nodup) : (unload_extension h reg ext).1.Nodup := by
  by_cases hm : ext ∈ reg
  · cases he : h.unloadErr ext with
    | none => rw [unload_of_ok h reg ext hm he]; exact hnd.erase ext
    | some m => rw [unload_of_fail h reg ext hm he]; exact hnd
  · rw [unload_of_not_mem h reg ext hm]; exact hnd

theorem unload_mem_other {x : String} (hx : x ≠ ext) :
    x ∈ (unload_extension h reg ext).1 ↔ x ∈ reg := by
  by_cases hm : ext ∈ reg
  · cases he : h.unloadErr ext with
    | none => rw [unload_of_ok h reg ext hm he]; exact List.mem_erase_of_ne hx
    | some m => rw [unload_of_fail h reg ext hm he]
  · rw [unload_of_not_mem h reg ext hm]

/-- `reload_or_load_extension`, case: not active, load succeeds. -/
theorem rol_not_mem_ok (hm : ext ∉ reg) (he : h.loadErr ext = none) :
    reload_or_load_extension h reg ext =
      (reg ++ [ext], Except.ok _ExtensionState.loaded) := by
  simp [reload_or_load_extension, load_of_ok h reg ext hm he]

/-- `reload_or_load_extension`, case: not active, load fails.  The exception
is not `AlreadyLoadedError`, so it propagates. -/
theorem rol_not_mem_fail {m : String} (hm : ext ∉ reg) (he : h.loadErr ext = some m) :
    reload_or_load_extension h reg ext =
      (reg, Except.error ⟨ErrKind.loadError, m⟩) := by
  simp [reload_or_load_extension, load_of_fail h reg ext hm he]

/-- `reload_or_load_extension`, case: active, teardown fails.  The registry
keeps the identifier. -/
theorem rol_mem_unload_fail {m : String} (hm : ext ∈ reg) (he : h.unloadErr ext = some m) :
    reload_or_load_extension h reg ext =
      (reg, Except.error ⟨ErrKind.unloadError, m⟩) := by
  simp [reload_or_load_extension, load_of_mem h reg ext hm, reload_extension,
    unload_of_fail h reg ext hm he]

/-- `reload_or_load_extension`, case: active, unload and load both succeed. -/
theorem rol_mem_ok (hm : ext ∈ reg) (hu : h.unloadErr ext = none)
    (hnm : ext ∉ reg.erase ext) (hl : h.loadErr ext = none) :
    reload_or_load_extension h reg ext =
      (reg.erase ext ++ [ext], Except.ok _ExtensionState.reloaded) := by
  simp [reload_or_load_extension, load_of_mem h reg ext hm, reload_extension,
    unload_of_ok h reg ext hm hu, load_of_ok h (reg.erase ext) ext hnm hl]

/-- `reload_or_load_extension`, case: active, unload succeeds and the load
step fails.  The identifier is gone and not restored (spec §4.3: no
rollback). -/
theorem rol_mem_load_fail {m : String} (hm : ext ∈ reg) (hu : h.unloadErr ext = none)
    (hnm : ext ∉ reg.erase ext) (hl : h.loadErr ext = some m) :
    reload_or_load_extension h reg ext =
      (reg.erase ext, Except.error ⟨ErrKind.loadError, m⟩) := by
  simp [reload_or_load_extension, load_of_mem h reg ext hm, reload_extension,
    unload_of_ok h reg ext hm hu, load_of_fail h (reg.erase ext) ext hnm hl]

/-- `reload_or_load_extension`, degenerate case of a duplicated registry
entry (unreachable for a `Nodup` registry): the re-load step raises
`AlreadyLoadedError`, which propagates out of `reload_extension`. -/
theorem rol_mem_dup (hm : ext ∈ reg) (hu : h.unloadErr ext = none)
    (hdm : ext ∈ reg.erase ext) :
    reload_or_load_extension h reg ext =
      (reg.erase ext, Except.error ⟨ErrKind.alreadyLoaded, ext⟩) := by
  simp [reload_or_load_extension, load_of_mem h reg ext hm, reload_extension,
    unload_of_ok h reg ext hm hu, load_of_mem h (reg.erase ext) ext hdm]

end OpLemmas

/-! ## Behavioural lemmas for `reload_or_load_extension` -/

section RolLemmas

variable (h : HostBehavior) (reg : Registry) (ext : String)

/-- A lifecycle step on `ext` does not change the activation of any other
identifier. -/
theorem rol_mem_other {x : String} (hx : x ≠ ext) :
    x ∈ (reload_or_load_extension h reg ext).1 ↔ x ∈ reg := by
  by_cases hm : ext ∈ reg
  · cases hu : h.unloadErr ext with
    | some m => rw [rol_mem_unload_fail h reg ext hm hu]
    | none =>
      by_cases hdm : ext ∈ reg.erase ext
      · rw [rol_mem_dup h reg ext hm hu hdm]
        exact List.mem_erase_of_ne hx
      · cases hl : h.loadErr ext with
        | none =>
          rw [rol_mem_ok h reg ext hm hu hdm hl]
          simp [List.mem_append, List.mem_erase_of_ne hx, hx]
        | some m =>
          rw [rol_mem_load_fail h reg ext hm hu hdm hl]
          exact List.mem_erase_of_ne hx
  · cases hl : h.loadErr ext with
    | none =>
      rw [rol_not_mem_ok h reg ext hm hl]
      simp [List.mem_append, hx]
    | some m => rw [rol_not_mem_fail h reg ext hm hl]

theorem rol_fst_nodup (hnd : reg.Nodup) :
    (reload_or_load_extension h reg ext).1.Nodup := by
  by_cases hm : ext ∈ reg
  · cases hu : h.unloadErr ext with
    | some m => rw [rol_mem_unload_fail h reg ext hm hu]; exact hnd
    | none =>
      by_cases hdm : ext ∈ reg.erase ext
      · rw [rol_mem_dup h reg ext hm hu hdm]; exact hnd.erase ext
      · cases hl : h.loadErr ext with
        | none =>
          rw [rol_mem_ok h reg ext hm hu hdm hl]
          simp [List.nodup_append, hnd.erase ext, hdm]
        | some m => rw [rol_mem_load_fail h reg ext hm hu hdm hl]; exact hnd.erase ext
  · cases hl : h.loadErr ext with
    | none =>
      rw [rol_not_mem_ok h reg ext hm hl]
      simp [List.nodup_append, hnd, hm]
    | some m => rw [rol_not_mem_fail h reg ext hm hl]; exact hnd

/-- A non-failed `reload_or_load_extension` leaves the identifier active. -/
theorem rol_ok_mem_self {st : _ExtensionState}
    (hok : (reload_or_load_extension h reg ext).2 = Except.ok st) :
    ext ∈ (reload_or_load_extension h reg ext).1 := by
  by_cases hm : ext ∈ reg
  · cases hu : h.unloadErr ext with
    | some m => rw [rol_mem_unload_fail h reg ext hm hu] at hok ⊢; simp at hok
    | none =>
      by_cases hdm : ext ∈ reg.erase ext
      · rw [rol_mem_dup h reg ext hm hu hdm] at hok ⊢; simp at hok
      · cases hl : h.loadErr ext with
        | none =>
          rw [rol_mem_ok h reg ext hm hu hdm hl]
          simp
        | some m => rw [rol_mem_load_fail h reg ext hm hu hdm hl] at hok ⊢; simp at hok
  · cases hl : h.loadErr ext with
    | none =>
      rw [rol_not_mem_ok h reg ext hm hl]
      simp
    | some m => rw [rol_not_mem_fail h reg ext hm hl] at hok ⊢; simp at hok

/-- A non-failed `reload_or_load_extension` implies the extension's setup
does not raise. -/
theorem rol_ok_loadErr {st : _ExtensionState}
    (hok : (reload_or_load_extension h reg ext).2 = Except.ok st) :
    h.loadErr ext = none := by
  by_cases hm : ext ∈ reg
  · cases hu : h.unloadErr ext with
    | some m => rw [rol_mem_unload_fail h reg ext hm hu] at hok; simp at hok
    | none =>
      by_cases hdm : ext ∈ reg.erase ext
      · rw [rol_mem_dup h reg ext hm hu hdm] at hok; simp at hok
      · cases hl : h.loadErr ext with
        | none => rfl
        | some m => rw [rol_mem_load_fail h reg ext hm hu hdm hl] at hok; simp at hok
  · cases hl : h.loadErr ext with
    | none => rfl
    | some m => rw [rol_not_mem_fail h reg ext hm hl] at hok; simp at hok

/-- If `ext` is active and its setup does not raise, it is still active after
`reload_or_load_extension`, whatever else happens. -/
theorem rol_mem_self_preserved (hm : ext ∈ reg) (hle : h.loadErr ext = none) :
    ext ∈ (reload_or_load_extension h reg ext).1 := by
  cases hu : h.unloadErr ext with
  | some m => rw [rol_mem_unload_fail h reg ext hm hu]; exact hm
  | none =>
    by_cases hdm : ext ∈ reg.erase ext
    · rw [rol_mem_dup h reg ext hm hu hdm]; exact hdm
    · rw [rol_mem_ok h reg ext hm hu hdm hle]; simp

/-- `reload_or_load_extension` never returns the `unloaded` state. -/
theorem rol_ne_ok_unloaded :
    (reload_or_load_extension h reg ext).2 ≠ Except.ok _ExtensionState.unloaded := by
  by_cases hm : ext ∈ reg
  · cases hu : h.unloadErr ext with
    | some m => rw [rol_mem_unload_fail h reg ext hm hu]; simp
    | none =>
      by_cases hdm : ext ∈ reg.erase ext
      · rw [rol_mem_dup h reg ext hm hu hdm]; simp
      · cases hl : h.loadErr ext with
        | none => rw [rol_mem_ok h reg ext hm hu hdm hl]; simp
        | some m => rw [rol_mem_load_fail h reg ext hm hu hdm hl]; simp
  · cases hl : h.loadErr ext with
    | none => rw [rol_not_mem_ok h reg ext hm hl]; simp
    | some m => rw [rol_not_mem_fail h reg ext hm hl]; simp

end RolLemmas

/-! ## Lemmas about the two loops of `_reload_all` -/

theorem unloadPass_fst_subset (h : HostBehavior) :
    ∀ (exts : List String) (reg : Registry), (unloadPass h reg exts).1 ⊆ reg := by
  intro exts
  induction exts with
  | nil => intro reg; simp [unloadPass]
  | cons ext rest ih =>
    intro reg
    rcases hu : unload_extension h reg ext with ⟨reg1, r⟩
    have hsub : reg1 ⊆ reg := by
      have := unload_fst_subset h reg ext
      rw [hu] at this; exact this
    cases r with
    | none =>
      simp only [unloadPass, hu]
      exact fun x hx => hsub (ih reg1 hx)
    | some e =>
      simp only [unloadPass, hu]
      exact fun x hx => hsub (ih reg1 hx)

/-- The first loop: the registry stays duplicate-free, and every identifier
with a non-failed (that is, `unloaded`) outcome ends up inactive; such
identifiers are never in the desired list the loop was computed from. -/
theorem unloadPass_spec (h : HostBehavior) (desired : List String) :
    ∀ (exts : List String) (reg : Registry), reg.Nodup → (∀ x ∈ exts, x ∉ desired) →
      (unloadPass h reg exts).1.Nodup ∧
      ∀ p ∈ (unloadPass h reg exts).2, (∀ e, p.2 ≠ Category.failed e) →
        p.1 ∉ (unloadPass h reg exts).1 ∧ p.1 ∉ desired := by
  intro exts
  induction exts with
  | nil => intro reg hnd _; exact ⟨hnd, by simp [unloadPass]⟩
  | cons ext rest ih =>
    intro reg hnd hnin
    rcases hu : unload_extension h reg ext with ⟨reg1, r⟩
    have hnd1 : reg1.Nodup := by
      have := unload_fst_nodup h reg ext hnd
      rw [hu] at this; exact this
    have hrest : ∀ x ∈ rest, x ∉ desired := fun x hx => hnin x (List.mem_cons_of_mem _ hx)
    cases r with
    | some e =>
      simp only [unloadPass, hu]
      refine ⟨(ih reg1 hnd1 hrest).1, ?_⟩
      intro p hp hpf
      rcases List.mem_cons.mp hp with hp1 | hp2
      · subst hp1; exact absurd rfl (hpf e)
      · exact (ih reg1 hnd1 hrest).2 p hp2 hpf
    | none =>
      have hm : ext ∈ reg := by
        by_contra hm
        rw [unload_of_not_mem h reg ext hm] at hu; simp at hu
      have hue : h.unloadErr ext = none := by
        cases hue : h.unloadErr ext with
        | none => rfl
        | some m => rw [unload_of_fail h reg ext hm hue] at hu; simp at hu
      have hreg1 : reg1 = reg.erase ext := by
        rw [unload_of_ok h reg ext hm hue] at hu
        simp at hu
        exact hu.symm
      have hnotmem : ext ∉ reg1 := by
        rw [hreg1]
        intro hc
        exact ((hnd.mem_erase_iff).mp hc).1 rfl
      simp only [unloadPass, hu]
      refine ⟨(ih reg1 hnd1 hrest).1, ?_⟩
      intro p hp hpf
      rcases List.mem_cons.mp hp with hp1 | hp2
      · subst hp1
        refine ⟨fun hc => hnotmem (unloadPass_fst_subset h rest reg1 hc), ?_⟩
        exact hnin ext (List.mem_cons_self ..)
      · exact (ih reg1 hnd1 hrest).2 p hp2 hpf

/-- The first loop records exactly one outcome per identifier it processes,
in order, whatever the host does. -/
theorem unloadPass_map_fst (h : HostBehavior) :
    ∀ (exts : List String) (reg : Registry),
      (unloadPass h reg exts).2.map Prod.fst = exts := by
  intro exts
  induction exts with
  | nil => intro reg; simp [unloadPass]
  | cons ext rest ih =>
    intro reg
    rcases hu : unload_extension h reg ext with ⟨reg1, r⟩
    cases r <;> simp [unloadPass, hu, ih reg1]

/-- An identifier whose setup does not raise stays active through the whole
second loop once it is active. -/
theorem loadPass_mem_stable (h : HostBehavior) {e : String} (hle : h.loadErr e = none) :
    ∀ (rest : List String) (reg : Registry), e ∈ reg → e ∈ (loadPass h reg rest).1 := by
  intro rest
  induction rest with
  | nil => intro reg hm; simpa [loadPass] using hm
  | cons ext rest ih =>
    intro reg hm
    rcases hr : reload_or_load_extension h reg ext with ⟨reg1, r⟩
    have hm1 : e ∈ reg1 := by
      by_cases hx : e = ext
      · subst hx
        have := rol_mem_self_preserved h reg e hm hle
        rw [hr] at this; exact this
      · have := (rol_mem_other h reg ext hx).mpr hm
        rw [hr] at this; exact this
    cases r with
    | error err => simp only [loadPass, hr]; exact ih reg1 hm1
    | ok st => cases st <;> (simp only [loadPass, hr]; exact ih reg1 hm1)

/-- The second loop does not change the activation of identifiers it never
processes. -/
theorem loadPass_mem_other (h : HostBehavior) :
    ∀ (rest : List String) (reg : Registry) (x : String),
      x ∉ rest → (x ∈ (loadPass h reg rest).1 ↔ x ∈ reg) := by
  intro rest
  induction rest with
  | nil => intro reg x _; simp [loadPass]
  | cons ext rest ih =>
    intro reg x hx
    have hxe : x ≠ ext := fun hc => hx (hc ▸ List.mem_cons_self ..)
    have hxr : x ∉ rest := fun hc => hx (List.mem_cons_of_mem _ hc)
    rcases hr : reload_or_load_extension h reg ext with ⟨reg1, r⟩
    have h1 : x ∈ reg1 ↔ x ∈ reg := by
      have := rol_mem_other h reg ext hxe
      rw [hr] at this; exact this
    cases r with
    | error err => simp only [loadPass, hr]; exact (ih reg1 x hxr).trans h1
    | ok st => cases st <;> (simp only [loadPass, hr]; exact (ih reg1 x hxr).trans h1)

theorem loadPass_fst_nodup (h : HostBehavior) :
    ∀ (rest : List String) (reg : Registry), reg.Nodup → (loadPass h reg rest).1.Nodup := by
  intro rest
  induction rest with
  | nil => intro reg hnd; simpa [loadPass] using hnd
  | cons ext rest ih =>
    intro reg hnd
    rcases hr : reload_or_load_extension h reg ext with ⟨reg1, r⟩
    have hnd1 : reg1.Nodup := by
      have := rol_fst_nodup h reg ext hnd
      rw [hr] at this; exact this
    cases r with
    | error err => simp only [loadPass, hr]; exact ih reg1 hnd1
    | ok st => cases st <;> (simp only [loadPass, hr]; exact ih reg1 hnd1)

/-- The second loop: every identifier with a non-failed outcome is active
when the loop finishes, and belongs to the desired list. -/
theorem loadPass_outcomes (h : HostBehavior) (desired : List String) :
    ∀ (rest : List String) (reg : Registry), (∀ x ∈ rest, x ∈ desired) →
      ∀ p ∈ (loadPass h reg rest).2, (∀ e, p.2 ≠ Category.failed e) →
        p.1 ∈ (loadPass h reg rest).1 ∧ p.1 ∈ desired := by
  intro rest
  induction rest with
  | nil => intro reg _ p hp; simp [loadPass] at hp
  | cons ext rest ih =>
    intro reg hsub
    have hrsub : ∀ x ∈ rest, x ∈ desired := fun x hx => hsub x (List.mem_cons_of_mem _ hx)
    rcases hr : reload_or_load_extension h reg ext with ⟨reg1, r⟩
    cases r with
    | error err =>
      simp only [loadPass, hr]
      intro p hp hpf
      rcases List.mem_cons.mp hp with hp1 | hp2
      · subst hp1; exact absurd rfl (hpf err)
      · exact ih reg1 hrsub p hp2 hpf
    | ok st =>
      have hok2 : (reload_or_load_extension h reg ext).2 = Except.ok st := by rw [hr]
      have hmem : ext ∈ reg1 := by
        have := rol_ok_mem_self h reg ext hok2
        rw [hr] at this; exact this
      have hle : h.loadErr ext = none := rol_ok_loadErr h reg ext hok2
      have hstable : ext ∈ (loadPass h reg1 rest).1 :=
        loadPass_mem_stable h hle rest reg1 hmem
      cases st with
      | loaded =>
        simp only [loadPass, hr]
        intro p hp hpf
        rcases List.mem_cons.mp hp with hp1 | hp2
        · subst hp1; exact ⟨hstable, hsub ext (List.mem_cons_self ..)⟩
        · exact ih reg1 hrsub p hp2 hpf
      | reloaded =>
        simp only [loadPass, hr]
        intro p hp hpf
        rcases List.mem_cons.mp hp with hp1 | hp2
        · subst hp1; exact ⟨hstable, hsub ext (List.mem_cons_self ..)⟩
        · exact ih reg1 hrsub p hp2 hpf
      | unloaded =>
        simp only [loadPass, hr]
        intro p hp hpf
        exact ih reg1 hrsub p hp hpf

/-- The second loop records exactly one outcome per desired identifier, in
order, whatever the host does. -/
theorem loadPass_map_fst (h : HostBehavior) :
    ∀ (rest : List String) (reg : Registry),
      (loadPass h reg rest).2.map Prod.fst = rest := by
  intro rest
  induction rest with
  | nil => intro reg; simp [loadPass]
  | cons ext rest ih =>
    intro reg
    rcases hr : reload_or_load_extension h reg ext with ⟨reg1, r⟩
    cases r with
    | error err => simp [loadPass, hr, ih reg1]
    | ok st =>
      cases st with
      | loaded => simp [loadPass, hr, ih reg1]
      | reloaded => simp [loadPass, hr, ih reg1]
      | unloaded =>
        exfalso
        have := rol_ne_ok_unloaded h reg ext
        rw [hr] at this
        exact this rfl

/-! ## Claim C1: reconciliation set algebra -/

/-- Claim C1: in a reconciliation pass over a duplicate-free registry, the
computed unload set is exactly the active snapshot minus the desired set,
and after the pass every identifier with a non-failed outcome is active if
and only if it is desired. -/
theorem reconcile_unload_set_and_membership (h : HostBehavior) (reg : Registry)
    (desired : List String) (hnd : reg.Nodup) :
    (∀ x, x ∈ toUnload reg desired ↔ (x ∈ reg ∧ x ∉ desired)) ∧
    ∀ p ∈ (reconcile h reg desired).2, (∀ e, p.2 ≠ Category.failed e) →
      (p.1 ∈ (reconcile h reg desired).1 ↔ p.1 ∈ desired) := by
  constructor
  · intro x
    simp [toUnload, List.mem_filter]
  · have htu : ∀ x ∈ toUnload reg desired, x ∉ desired := by
      intro x hx
      simp [toUnload, List.mem_filter] at hx
      exact hx.2
    have hspec := unloadPass_spec h desired (toUnload reg desired) reg hnd htu
    intro p hp hpf
    simp only [reconcile] at hp ⊢
    rcases List.mem_append.mp hp with h1 | h2
    · have hfact := hspec.2 p h1 hpf
      have hiff := loadPass_mem_other h desired
        (unloadPass h reg (toUnload reg desired)).1 p.1 hfact.2
      exact iff_of_false (fun hc => hfact.1 (hiff.mp hc)) hfact.2
    · have hfact := loadPass_outcomes h desired desired
        (unloadPass h reg (toUnload reg desired)).1 (fun x hx => hx) p h2 hpf
      exact iff_of_true hfact.1 hfact.2

/-- Witness for C1 at the spec's §8 scenario: registry `{cogs.b, cogs.c}`,
desired `{cogs.a, cogs.b}`, no host failure. -/
theorem reconcile_unload_set_and_membership_witness :
    (["cogs.b", "cogs.c"] : Registry).Nodup ∧
    ((∀ x, x ∈ toUnload ["cogs.b", "cogs.c"] ["cogs.a", "cogs.b"] ↔
        (x ∈ (["cogs.b", "cogs.c"] : Registry) ∧
          x ∉ (["cogs.a", "cogs.b"] : List String))) ∧
      ∀ p ∈ (reconcile hostNone ["cogs.b", "cogs.c"] ["cogs.a", "cogs.b"]).2,
        (∀ e, p.2 ≠ Category.failed e) →
          (p.1 ∈ (reconcile hostNone ["cogs.b", "cogs.c"] ["cogs.a", "cogs.b"]).1 ↔
            p.1 ∈ (["cogs.a", "cogs.b"] : List String))) :=
  ⟨by decide,
    reconcile_unload_set_and_membership hostNone ["cogs.b", "cogs.c"]
      ["cogs.a", "cogs.b"] (by decide)⟩

/-! ## Claim C2: `loadOrReload` categorization -/

/-- Claim C2: when `reload_or_load_extension` returns a state (does not
raise), the state is `loaded` exactly when the identifier was inactive and
`reloaded` exactly when it was active — never both — and the identifier is
active afterwards. -/
theorem reload_or_load_categories (h : HostBehavior) (reg : Registry) (ext : String)
    (st : _ExtensionState)
    (hok : (reload_or_load_extension h reg ext).2 = Except.ok st) :
    (st = _ExtensionState.loaded ↔ ext ∉ reg) ∧
    (st = _ExtensionState.reloaded ↔ ext ∈ reg) ∧
    ext ∈ (reload_or_load_extension h reg ext).1 := by
  by_cases hm : ext ∈ reg
  · have hst : st = _ExtensionState.reloaded := by
      cases hu : h.unloadErr ext with
      | some m => rw [rol_mem_unload_fail h reg ext hm hu] at hok; simp at hok
      | none =>
        by_cases hdm : ext ∈ reg.erase ext
        · rw [rol_mem_dup h reg ext hm hu hdm] at hok; simp at hok
        · cases hl : h.loadErr ext with
          | none =>
            rw [rol_mem_ok h reg ext hm hu hdm hl] at hok
            simp at hok
            exact hok.symm
          | some m => rw [rol_mem_load_fail h reg ext hm hu hdm hl] at hok; simp at hok
    subst hst
    exact ⟨by simp [hm], by simp [hm], rol_ok_mem_self h reg ext hok⟩
  · have hst : st = _ExtensionState.loaded := by
      cases hl : h.loadErr ext with
      | none =>
        rw [rol_not_mem_ok h reg ext hm hl] at hok
        simp at hok
        exact hok.symm
      | some m => rw [rol_not_mem_fail h reg ext hm hl] at hok; simp at hok
    subst hst
    exact ⟨by simp [hm], by simp [hm], rol_ok_mem_self h reg ext hok⟩

/-- Witness for C2: loading `cogs.a` into an empty registry yields `loaded`
and activates it. -/
theorem reload_or_load_categories_witness :
    ((reload_or_load_extension hostNone [] "cogs.a").2 =
        Except.ok _ExtensionState.loaded) ∧
    ((_ExtensionState.loaded = _ExtensionState.loaded ↔ "cogs.a" ∉ ([] : Registry)) ∧
      (_ExtensionState.loaded = _ExtensionState.reloaded ↔ "cogs.a" ∈ ([] : Registry)) ∧
      "cogs.a" ∈ (reload_or_load_extension hostNone [] "cogs.a").1) :=
  ⟨rfl, reload_or_load_categories hostNone [] "cogs.a" _ExtensionState.loaded rfl⟩

/-! ## Claim C3: reload with no rollback -/

/-- Claim C3: if during a reload the unload step succeeds and the load step
fails, the identifier ends up inactive (no rollback) and the operation
reports the load failure — which a reconciliation pass records as
`failed`. -/
theorem reload_unload_ok_load_fail (h : HostBehavior) (reg : Registry) (ext m : String)
    (hnd : reg.Nodup) (hm : ext ∈ reg)
    (hu : h.unloadErr ext = none) (hl : h.loadErr ext = some m) :
    reload_extension h reg ext = (reg.erase ext, some ⟨ErrKind.loadError, m⟩) ∧
    ext ∉ (reload_extension h reg ext).1 ∧
    reload_or_load_extension h reg ext =
      (reg.erase ext, Except.error ⟨ErrKind.loadError, m⟩) ∧
    ext ∉ (reload_or_load_extension h reg ext).1 := by
  have hdm : ext ∉ reg.erase ext := fun hc => ((hnd.mem_erase_iff).mp hc).1 rfl
  have h1 : reload_extension h reg ext = (reg.erase ext, some ⟨ErrKind.loadError, m⟩) := by
    simp [reload_extension, unload_of_ok h reg ext hm hu,
      load_of_fail h (reg.erase ext) ext hdm hl]
  have h2 := rol_mem_load_fail h reg ext hm hu hdm hl
  refine ⟨h1, ?_, h2, ?_⟩
  · rw [h1]; exact hdm
  · rw [h2]; exact hdm

/-- Witness for C3: reloading `cogs.a` on `hostBoom` (teardown succeeds, the
new setup raises) leaves the registry without `cogs.a`. -/
theorem reload_unload_ok_load_fail_witness :
    (["cogs.a"] : Registry).Nodup ∧ "cogs.a" ∈ (["cogs.a"] : Registry) ∧
    hostBoom.unloadErr "cogs.a" = none ∧ hostBoom.loadErr "cogs.a" = some "boom" ∧
    (reload_extension hostBoom ["cogs.a"] "cogs.a" =
        ((["cogs.a"] : Registry).erase "cogs.a", some ⟨ErrKind.loadError, "boom"⟩) ∧
      "cogs.a" ∉ (reload_extension hostBoom ["cogs.a"] "cogs.a").1 ∧
      reload_or_load_extension hostBoom ["cogs.a"] "cogs.a" =
        ((["cogs.a"] : Registry).erase "cogs.a",
          Except.error ⟨ErrKind.loadError, "boom"⟩) ∧
      "cogs.a" ∉ (reload_or_load_extension hostBoom ["cogs.a"] "cogs.a").1) :=
  ⟨by decide, by decide, rfl, rfl,
    reload_unload_ok_load_fail hostBoom ["cogs.a"] "cogs.a" "boom"
      (by decide) (by decide) rfl rfl⟩

/-! ## Claim C4: failure isolation -/

/-- Claim C4 counterexample: at process startup, `init_extensions` re-raises
the first load failure.  With `cogs.a` failing, the error propagates (it is
not converted into a recorded `Failed` outcome) and `cogs.b` is never
processed: the pass aborts with an empty registry. -/
theorem init_extensions_aborts_on_failure :
    (init_extensions hostBoom [] ["cogs.a", "cogs.b"]).2 =
      some ⟨ErrKind.loadError, "boom"⟩ ∧
    (init_extensions hostBoom [] ["cogs.a", "cogs.b"]).1 = [] ∧
    "cogs.b" ∉ (init_extensions hostBoom [] ["cogs.a", "cogs.b"]).1 := by
  decide

/-- Claim C4 (amended): in a `reload all` reconciliation pass, every
per-identifier error is converted into a `failed` outcome and never aborts
the batch — exactly one outcome is recorded per touched identifier, in
processing order, whatever the host does.  (At startup, by contrast,
`init_extensions` logs and re-raises the first error, aborting the batch.) -/
theorem reconcile_processes_every_identifier (h : HostBehavior) (reg : Registry)
    (desired : List String) :
    (reconcile h reg desired).2.map Prod.fst = toUnload reg desired ++ desired := by
  simp only [reconcile, List.map_append]
  rw [unloadPass_map_fst, loadPass_map_fst]

/-! ## Lemmas for the failure-free case (claim C8) -/

theorem unloadPass_fst_nodup (h : HostBehavior) :
    ∀ (exts : List String) (reg : Registry), reg.Nodup → (unloadPass h reg exts).1.Nodup := by
  intro exts
  induction exts with
  | nil => intro reg hnd; simpa [unloadPass] using hnd
  | cons ext rest ih =>
    intro reg hnd
    rcases hu : unload_extension h reg ext with ⟨reg1, r⟩
    have hnd1 : reg1.Nodup := by
      have := unload_fst_nodup h reg ext hnd
      rw [hu] at this; exact this
    cases r <;> (simp only [unloadPass, hu]; exact ih reg1 hnd1)

/-- With a failure-free host, the first loop removes exactly the identifiers
it is given. -/
theorem unloadPass_ok_mem (h : HostBehavior) (hok : hostOk h) :
    ∀ (exts : List String) (reg : Registry), reg.Nodup → exts.Nodup →
      (∀ x ∈ exts, x ∈ reg) →
      ∀ x, x ∈ (unloadPass h reg exts).1 ↔ (x ∈ reg ∧ x ∉ exts) := by
  intro exts
  induction exts with
  | nil => intro reg _ _ _ x; simp [unloadPass]
  | cons ext rest ih =>
    intro reg hnd hnde hsub x
    have hm : ext ∈ reg := hsub ext (List.mem_cons_self ..)
    have hu : unload_extension h reg ext = (reg.erase ext, none) :=
      unload_of_ok h reg ext hm (hok ext).2
    have hnde1 : rest.Nodup := (List.nodup_cons.mp hnde).2
    have hexr : ext ∉ rest := (List.nodup_cons.mp hnde).1
    have hsub1 : ∀ y ∈ rest, y ∈ reg.erase ext := by
      intro y hy
      have hyne : y ≠ ext := fun hc => hexr (hc ▸ hy)
      exact (List.mem_erase_of_ne hyne).mpr (hsub y (List.mem_cons_of_mem _ hy))
    simp only [unloadPass, hu]
    rw [ih (reg.erase ext) (hnd.erase ext) hnde1 hsub1 x, hnd.mem_erase_iff]
    simp only [List.mem_cons]
    tauto

/-- With a failure-free host, the second loop activates exactly its input
set, and if everything it processes is already active it reports `reloaded`
for every identifier, in order. -/
theorem loadPass_ok (h : HostBehavior) (hok : hostOk h) :
    ∀ (rest : List String) (reg : Registry), reg.Nodup →
      (∀ x, x ∈ (loadPass h reg rest).1 ↔ (x ∈ reg ∨ x ∈ rest)) ∧
      ((∀ x ∈ rest, x ∈ reg) →
        (loadPass h reg rest).2 = rest.map (fun e => (e, Category.reloaded))) := by
  intro rest
  induction rest with
  | nil => intro reg _; exact ⟨by simp [loadPass], by simp [loadPass]⟩
  | cons ext rest ih =>
    intro reg hnd
    by_cases hm : ext ∈ reg
    · have hdm : ext ∉ reg.erase ext := fun hc => ((hnd.mem_erase_iff).mp hc).1 rfl
      have hr := rol_mem_ok h reg ext hm (hok ext).2 hdm (hok ext).1
      have hnd1 : (reg.erase ext ++ [ext]).Nodup := by
        simp [List.nodup_append, hnd.erase ext, hdm]
      have hmem1 : ∀ x, x ∈ reg.erase ext ++ [ext] ↔ x ∈ reg := by
        intro x
        by_cases hx : x = ext
        · subst hx; simp [hm]
        · simp [List.mem_append, List.mem_erase_of_ne hx, hx]
      constructor
      · intro x
        simp only [loadPass, hr]
        rw [(ih (reg.erase ext ++ [ext]) hnd1).1 x, hmem1 x]
        constructor
        · intro hc
          rcases hc with hc | hc
          · exact Or.inl hc
          · exact Or.inr (List.mem_cons_of_mem _ hc)
        · intro hc
          rcases hc with hc | hc
          · exact Or.inl hc
          · rcases List.mem_cons.mp hc with hc1 | hc2
            · exact Or.inl (hc1 ▸ hm)
            · exact Or.inr hc2
      · intro hsub
        simp only [loadPass, hr]
        have hsub1 : ∀ x ∈ rest, x ∈ reg.erase ext ++ [ext] :=
          fun x hx => (hmem1 x).mpr (hsub x (List.mem_cons_of_mem _ hx))
        rw [(ih (reg.erase ext ++ [ext]) hnd1).2 hsub1]
        simp
    · have hr := rol_not_mem_ok h reg ext hm (hok ext).1
      have hnd1 : (reg ++ [ext]).Nodup := by simp [List.nodup_append, hnd, hm]
      constructor
      · intro x
        simp only [loadPass, hr]
        rw [(ih (reg ++ [ext]) hnd1).1 x]
        simp only [List.mem_append, List.mem_cons, List.mem_singleton]
        tauto
      · intro hsub
        exact absurd (hsub ext (List.mem_cons_self ..)) hm

/-! ## Claim C8: idempotence of reconciliation -/

/-- Claim C8 counterexample: `hostBoom` is constant — nothing external
changes between the two passes and the desired list is unchanged — yet the
second pass reports `failed` (the setup of `cogs.a` raises again, exactly as
it did on the first pass), not `reloaded`, for the desired identifier
`cogs.a`. -/
theorem reconcile_twice_failure_cex :
    (reconcile hostBoom (reconcile hostBoom [] ["cogs.a"]).1 ["cogs.a"]).2 =
      [("cogs.a", Category.failed ⟨ErrKind.loadError, "boom"⟩)] ∧
    ("cogs.a", Category.reloaded) ∉
      (reconcile hostBoom (reconcile hostBoom [] ["cogs.a"]).1 ["cogs.a"]).2 := by
  decide

/-- Claim C8 (amended): with an unchanged desired list and no host failure
in either pass (no extension's setup or teardown raises), a second
reconciliation pass computes an empty unload set and reports `reloaded` for
every desired identifier. -/
theorem reconcile_idempotent (h : HostBehavior) (reg : Registry)
    (desired : List String) (hok : hostOk h) (hnd : reg.Nodup) :
    toUnload (reconcile h reg desired).1 desired = [] ∧
    (reconcile h (reconcile h reg desired).1 desired).2 =
      desired.map (fun e => (e, Category.reloaded)) := by
  have htusub : ∀ x ∈ toUnload reg desired, x ∈ reg :=
    fun x hx => List.mem_of_mem_filter hx
  have htund : (toUnload reg desired).Nodup := hnd.filter _
  have hA := unloadPass_ok_mem h hok (toUnload reg desired) reg hnd htund htusub
  have hnd1 : (unloadPass h reg (toUnload reg desired)).1.Nodup :=
    unloadPass_fst_nodup h _ reg hnd
  have hB := loadPass_ok h hok desired (unloadPass h reg (toUnload reg desired)).1 hnd1
  have hfinal : ∀ x, x ∈ (reconcile h reg desired).1 ↔ x ∈ desired := by
    intro x
    simp only [reconcile]
    rw [hB.1 x, hA x]
    constructor
    · intro hc
      rcases hc with ⟨hx1, hx2⟩ | hc
      · by_contra hxd
        exact hx2 (by simp [toUnload, List.mem_filter, hx1, hxd])
      · exact hc
    · intro hc
      exact Or.inr hc
  have hfnd : (reconcile h reg desired).1.Nodup := by
    simp only [reconcile]
    exact loadPass_fst_nodup h desired _ hnd1
  have htu2 : toUnload (reconcile h reg desired).1 desired = [] := by
    apply List.filter_eq_nil_iff.mpr
    intro x hx
    simp [(hfinal x).mp hx]
  refine ⟨htu2, ?_⟩
  have hsub2 : ∀ x ∈ desired, x ∈ (reconcile h reg desired).1 :=
    fun x hx => (hfinal x).mpr hx
  have hload := (loadPass_ok h hok desired (reconcile h reg desired).1 hfnd).2 hsub2
  show (unloadPass h (reconcile h reg desired).1
      (toUnload (reconcile h reg desired).1 desired)).2 ++ _ = _
  rw [htu2]
  simpa [unloadPass] using hload

/-- Witness for C8 at the spec's §8 scenario inputs. -/
theorem reconcile_idempotent_witness :
    hostOk hostNone ∧ (["cogs.b", "cogs.c"] : Registry).Nodup ∧
    (toUnload (reconcile hostNone ["cogs.b", "cogs.c"] ["cogs.a", "cogs.b"]).1
        ["cogs.a", "cogs.b"] = [] ∧
      (reconcile hostNone
          (reconcile hostNone ["cogs.b", "cogs.c"] ["cogs.a", "cogs.b"]).1
          ["cogs.a", "cogs.b"]).2 =
        (["cogs.a", "cogs.b"] : List String).map (fun e => (e, Category.reloaded))) :=
  ⟨fun _ => ⟨rfl, rfl⟩, by decide,
    reconcile_idempotent hostNone ["cogs.b", "cogs.c"] ["cogs.a", "cogs.b"]
      (fun _ => ⟨rfl, rfl⟩) (by decide)⟩

/-! ## Membership in the discovery outputs -/

/-- An identifier is in the filtered discovery output exactly when some
candidate file passing the ignore filter derives it. -/
theorem mem_get_allowed (fs : FileSystem) (ignored : List String) :
    ∀ (dirs l : List String),
      get_allowed_extensions fs ignored dirs = Except.ok l →
      ∀ x, x ∈ l ↔ ∃ d files f, d ∈ dirs ∧ fs d = some files ∧ f ∈ files ∧
        (strEndsWith f ".py" && !(ignored.any (fun ig => strContains f ig))) = true ∧
        x = mkExt d f := by
  intro dirs
  induction dirs with
  | nil =>
    intro l hl x
    simp only [get_allowed_extensions] at hl
    injection hl with hl
    subst hl
    simp
  | cons d rest ih =>
    intro l hl x
    cases hfd : fs d with
    | none => simp [get_allowed_extensions, hfd] at hl
    | some files =>
      simp only [get_allowed_extensions, hfd] at hl
      cases hrec : get_allowed_extensions fs ignored rest with
      | error e => rw [hrec] at hl; simp at hl
      | ok more =>
        rw [hrec] at hl
        simp only [Except.ok.injEq] at hl
        subst hl
        constructor
        · intro hx
          rcases List.mem_append.mp hx with hx1 | hx2
          · rcases List.mem_map.mp hx1 with ⟨f, hf, hfx⟩
            have hff := List.mem_filter.mp hf
            exact ⟨d, files, f, List.mem_cons_self .., hfd, hff.1, hff.2, hfx.symm⟩
          · rcases (ih more hrec x).mp hx2 with ⟨d', files', f', hd', hfs', hf', hp', hx'⟩
            exact ⟨d', files', f', List.mem_cons_of_mem _ hd', hfs', hf', hp', hx'⟩
        · rintro ⟨d', files', f', hd', hfs', hf', hp', hx'⟩
          rcases List.mem_cons.mp hd' with hdd | hdr
          · subst hdd
            rw [hfd] at hfs'
            rcases Option.some.injEq .. ▸ hfs' with rfl
            apply List.mem_append.mpr
            exact Or.inl (List.mem_map.mpr ⟨f', List.mem_filter.mpr ⟨hf', hp'⟩, hx'.symm⟩)
          · apply List.mem_append.mpr
            exact Or.inr ((ih more hrec x).mpr ⟨d', files', f', hdr, hfs', hf', hp', hx'⟩)

/-- An identifier is in the unfiltered discovery output exactly when some
candidate file other than the exact name `__init__.py` derives it. -/
theorem mem_get_all (fs : FileSystem) :
    ∀ (dirs l : List String),
      get_all_extensions fs dirs = Except.ok l →
      ∀ x, x ∈ l ↔ ∃ d files f, d ∈ dirs ∧ fs d = some files ∧ f ∈ files ∧
        (strEndsWith f ".py" && !(f == "__init__.py")) = true ∧
        x = mkExt d f := by
  intro dirs
  induction dirs with
  | nil =>
    intro l hl x
    simp only [get_all_extensions] at hl
    injection hl with hl
    subst hl
    simp
  | cons d rest ih =>
    intro l hl x
    cases hfd : fs d with
    | none => simp [get_all_extensions, hfd] at hl
    | some files =>
      simp only [get_all_extensions, hfd] at hl
      cases hrec : get_all_extensions fs rest with
      | error e => rw [hrec] at hl; simp at hl
      | ok more =>
        rw [hrec] at hl
        simp only [Except.ok.injEq] at hl
        subst hl
        constructor
        · intro hx
          rcases List.mem_append.mp hx with hx1 | hx2
          · rcases List.mem_map.mp hx1 with ⟨f, hf, hfx⟩
            have hff := List.mem_filter.mp hf
            exact ⟨d, files, f, List.mem_cons_self .., hfd, hff.1, hff.2, hfx.symm⟩
          · rcases (ih more hrec x).mp hx2 with ⟨d', files', f', hd', hfs', hf', hp', hx'⟩
            exact ⟨d', files', f', List.mem_cons_of_mem _ hd', hfs', hf', hp', hx'⟩
        · rintro ⟨d', files', f', hd', hfs', hf', hp', hx'⟩
          rcases List.mem_cons.mp hd' with hdd | hdr
          · subst hdd
            rw [hfd] at hfs'
            rcases Option.some.injEq .. ▸ hfs' with rfl
            apply List.mem_append.mpr
            exact Or.inl (List.mem_map.mpr ⟨f', List.mem_filter.mpr ⟨hf', hp'⟩, hx'.symm⟩)
          · apply List.mem_append.mpr
            exact Or.inr ((ih more hrec x).mpr ⟨d', files', f', hdr, hfs', hf', hp', hx'⟩)

/-! ## Claim C9: filtered discovery is contained in unfiltered discovery -/

/-- Claim C9: with the repository's configured ignore substrings
(`["!", "__init__"]`), every identifier in the filtered discovery output is
also in the unfiltered output: a filename containing no ignore substring in
particular does not contain `__init__`, so it is not the exact name
`__init__.py`. -/
theorem allowed_subset_all (fs : FileSystem) (dirs l l' : List String)
    (hA : get_allowed_extensions fs IGNORED_EXTENSIONS dirs = Except.ok l)
    (hU : get_all_extensions fs dirs = Except.ok l') :
    ∀ x ∈ l, x ∈ l' := by
  intro x hx
  rcases (mem_get_allowed fs IGNORED_EXTENSIONS dirs l hA x).mp hx with
    ⟨d, files, f, hd, hfs, hf, hpred, hxe⟩
  apply (mem_get_all fs dirs l' hU x).mpr
  refine ⟨d, files, f, hd, hfs, hf, ?_, hxe⟩
  simp only [Bool.and_eq_true, Bool.not_eq_true'] at hpred ⊢
  obtain ⟨hend, hany⟩ := hpred
  refine ⟨hend, ?_⟩
  simp only [IGNORED_EXTENSIONS, List.any_cons, List.any_nil,
    Bool.or_eq_false_iff] at hany
  rcases Bool.eq_false_or_eq_true (f == "__init__.py") with hb | hb
  · have hfeq : f = "__init__.py" := by
      have := hb
      simp only [beq_iff_eq] at this
      exact this
    subst hfeq
    exact absurd hany.2.1 (by decide)
  · exact hb

/-- Witness for C9 on a concrete directory tree. -/
theorem allowed_subset_all_witness :
    get_allowed_extensions fsOne IGNORED_EXTENSIONS ["./cogs"] =
      Except.ok ["cogs.admin"] ∧
    get_all_extensions fsOne ["./cogs"] = Except.ok ["cogs.admin"] ∧
    ∀ x ∈ ["cogs.admin"], x ∈ ["cogs.admin"] :=
  ⟨rfl, rfl, allowed_subset_all fsOne ["./cogs"] ["cogs.admin"] ["cogs.admin"] rfl rfl⟩

/-! ## Claim C5: the discovery filter rule -/

/-- Claim C5 counterexample.  First part: `__init__.py` is a candidate file
(it has the `.py` suffix), yet its identifier is absent from the unfiltered
output — the claim asserts it always appears.  Second part: with ignore
substrings `["!"]`, the candidate `minigames!.y.py` under `./cogs` contains
an ignore substring, yet its identifier appears in the filtered output
(another file of a sibling directory derives the same identifier) — the
claim asserts it appears iff the filename contains no ignore substring. -/
theorem discovery_filter_cex :
    (strEndsWith "__init__.py" ".py" = true ∧
      get_all_extensions fsInit ["./cogs"] = Except.ok ([] : List String) ∧
      mkExt "./cogs" "__init__.py" ∉ ([] : List String)) ∧
    (strContains "minigames!.y.py" "!" = true ∧
      get_allowed_extensions fsColl ["!"] ["./cogs", "./cogs/minigames!"] =
        Except.ok ["cogs.minigames!.y"] ∧
      mkExt "./cogs" "minigames!.y.py" ∈ ["cogs.minigames!.y"]) := by
  refine ⟨⟨rfl, rfl, by decide⟩, ⟨rfl, rfl, ?_⟩⟩
  have : mkExt "./cogs" "minigames!.y.py" = "cogs.minigames!.y" := rfl
  rw [this]
  decide

/-- Claim C5 (amended): provided distinct candidate files derive distinct
identifiers, a candidate file's identifier appears in the filtered output
iff its name contains no ignore substring, and appears in the unfiltered
output iff its name is not exactly `__init__.py` (rather than always). -/
theorem discovery_filter_amended (fs : FileSystem) (ignored dirs : List String)
    (d f : String) (files l l' : List String)
    (hd : d ∈ dirs) (hfs : fs d = some files) (hf : f ∈ files)
    (hend : strEndsWith f ".py" = true)
    (huniq : ∀ d' f' files', d' ∈ dirs → fs d' = some files' → f' ∈ files' →
      strEndsWith f' ".py" = true → mkExt d' f' = mkExt d f → d' = d ∧ f' = f)
    (hA : get_allowed_extensions fs ignored dirs = Except.ok l)
    (hU : get_all_extensions fs dirs = Except.ok l') :
    (mkExt d f ∈ l ↔ (ignored.any (fun ig => strContains f ig)) = false) ∧
    (mkExt d f ∈ l' ↔ (f == "__init__.py") = false) := by
  constructor
  · constructor
    · intro hx
      rcases (mem_get_allowed fs ignored dirs l hA _).mp hx with
        ⟨d', files', f', hd', hfs', hf', hp', hx'⟩
      simp only [Bool.and_eq_true, Bool.not_eq_true'] at hp'
      rcases huniq d' f' files' hd' hfs' hf' hp'.1 hx'.symm with ⟨rfl, rfl⟩
      exact hp'.2
    · intro hno
      apply (mem_get_allowed fs ignored dirs l hA _).mpr
      exact ⟨d, files, f, hd, hfs, hf, by simp [hend, hno], rfl⟩
  · constructor
    · intro hx
      rcases (mem_get_all fs dirs l' hU _).mp hx with
        ⟨d', files', f', hd', hfs', hf', hp', hx'⟩
      simp only [Bool.and_eq_true, Bool.not_eq_true'] at hp'
      rcases huniq d' f' files' hd' hfs' hf' hp'.1 hx'.symm with ⟨rfl, rfl⟩
      exact hp'.2
    · intro hno
      apply (mem_get_all fs dirs l' hU _).mpr
      exact ⟨d, files, f, hd, hfs, hf, by simp [hend, hno], rfl⟩

/-- Witness for the amended C5 on a concrete tree: `admin.py` under
`./cogs` with the repository's ignore list. -/
theorem discovery_filter_amended_witness :
    ("./cogs" ∈ ["./cogs"] ∧
      fsOne "./cogs" = some ["admin.py"] ∧
      "admin.py" ∈ ["admin.py"] ∧
      strEndsWith "admin.py" ".py" = true) ∧
    (mkExt "./cogs" "admin.py" ∈ ["cogs.admin"] ↔
      (IGNORED_EXTENSIONS.any (fun ig => strContains "admin.py" ig)) = false) ∧
    (mkExt "./cogs" "admin.py" ∈ ["cogs.admin"] ↔
      ("admin.py" == "__init__.py") = false) := by
  refine ⟨⟨by decide, rfl, by decide, rfl⟩, ?_⟩
  apply discovery_filter_amended fsOne IGNORED_EXTENSIONS ["./cogs"]
    "./cogs" "admin.py" ["admin.py"] ["cogs.admin"] ["cogs.admin"]
    (by decide) rfl (by decide) rfl ?_ rfl rfl
  intro d' f' files' hd' hfs' hf' _ _
  simp only [List.mem_singleton] at hd'
  subst hd'
  rw [show fsOne "./cogs" = some ["admin.py"] from rfl] at hfs'
  injection hfs' with h1
  subst h1
  simp only [List.mem_singleton] at hf'
  subst hf'
  exact ⟨rfl, rfl⟩

/-! ## Claim C6: a missing directory during a manual reconciliation -/

theorem get_allowed_error_of_missing (fs : FileSystem) (ignored : List String) :
    ∀ dirs : List String, (∃ d ∈ dirs, fs d = none) →
      ∃ e, get_allowed_extensions fs ignored dirs = Except.error e ∧
        e.kind = ErrKind.discoveryError := by
  intro dirs
  induction dirs with
  | nil => rintro ⟨d, hd, _⟩; simp at hd
  | cons d0 rest ih =>
    rintro ⟨d, hd, hmiss⟩
    cases hfd : fs d0 with
    | none =>
      exact ⟨⟨ErrKind.discoveryError, d0⟩, by simp [get_allowed_extensions, hfd], rfl⟩
    | some files =>
      have hdr : d ∈ rest := by
        rcases List.mem_cons.mp hd with rfl | hdr
        · rw [hfd] at hmiss; cases hmiss
        · exact hdr
      rcases ih ⟨d, hdr, hmiss⟩ with ⟨e, he, hk⟩
      refine ⟨e, ?_, hk⟩
      simp [get_allowed_extensions, hfd, he]

/-- Claim C6: if a configured directory is missing when `reload all` runs,
discovery raises a `DiscoveryError`; the exception propagates out of the
command body to the command layer's error boundary, which reports it to the
caller as an error line — it is neither silently skipped nor dropped. -/
theorem reload_all_reports_discovery_error (fs : FileSystem)
    (ignored dirs : List String) (h : HostBehavior) (reg : Registry) (d : String)
    (hd : d ∈ dirs) (hmiss : fs d = none) :
    ∃ e, get_allowed_extensions fs ignored dirs = Except.error e ∧
      e.kind = ErrKind.discoveryError ∧
      reload_all fs ignored dirs h reg = Except.error e ∧
      reload_all_command fs ignored dirs h reg =
        CommandReply.errorText ("DiscoveryError: " ++ e.msg) := by
  rcases get_allowed_error_of_missing fs ignored dirs ⟨d, hd, hmiss⟩ with ⟨e, he, hk⟩
  refine ⟨e, he, hk, ?_, ?_⟩
  · simp [reload_all, he]
  · simp [reload_all_command, reload_all, he, hk, kindName]

/-- Witness for C6: every configured directory missing. -/
theorem reload_all_reports_discovery_error_witness :
    ("./cogs" ∈ (["./cogs"] : List String)) ∧ fsNone "./cogs" = none ∧
    (∃ e, get_allowed_extensions fsNone IGNORED_EXTENSIONS ["./cogs"] =
        Except.error e ∧
      e.kind = ErrKind.discoveryError ∧
      reload_all fsNone IGNORED_EXTENSIONS ["./cogs"] hostNone [] =
        Except.error e ∧
      reload_all_command fsNone IGNORED_EXTENSIONS ["./cogs"] hostNone [] =
        CommandReply.errorText ("DiscoveryError: " ++ e.msg)) :=
  ⟨by decide, rfl,
    reload_all_reports_discovery_error fsNone IGNORED_EXTENSIONS ["./cogs"]
      hostNone [] "./cogs" (by decide) rfl⟩

/-! ## Claim C7: the format of failed report items -/

/-- Claim C7 counterexample: `cogs.a` fails to load with message `boom`; the
failed item of the report carries the identifier and the error kind but not
the error message. -/
theorem failed_item_omits_message :
    (reconcile hostBoom [] ["cogs.a"]).2 =
      [("cogs.a", Category.failed ⟨ErrKind.loadError, "boom"⟩)] ∧
    failedStrings (reconcile hostBoom [] ["cogs.a"]).2 = ["`cogs.a`: `LoadError`"] ∧
    strContains "`cogs.a`: `LoadError`" "boom" = false :=
  ⟨rfl, rfl, by decide⟩

/-- Claim C7 (amended): every failed outcome of a reconciliation pass is
rendered in the failed list as an item containing the identifier and the
error kind name (the error message is not included). -/
theorem failed_items_contain_id_and_kind (h : HostBehavior) (reg : Registry)
    (desired : List String) (ext : String) (e : ExtError)
    (hmem : (ext, Category.failed e) ∈ (reconcile h reg desired).2) :
    failedItem ext e ∈ failedStrings (reconcile h reg desired).2 ∧
    strContains (failedItem ext e) ext = true ∧
    strContains (failedItem ext e) (kindName e.kind) = true := by
  refine ⟨?_, ?_, ?_⟩
  · apply List.mem_filterMap.mpr
    exact ⟨(ext, Category.failed e), hmem, rfl⟩
  · show charsContains ext.data (failedItem ext e).data = true
    have hdata : (failedItem ext e).data =
        ("`" : String).data ++
          (ext.data ++ ("`: `" ++ kindName e.kind ++ "`").data) := by
      simp [failedItem, strData_append, List.append_assoc]
    rw [hdata]
    exact charsContains_middle _ _ _
  · show charsContains (kindName e.kind).data (failedItem ext e).data = true
    have hdata : (failedItem ext e).data =
        ("`" ++ ext ++ "`: `").data ++
          ((kindName e.kind).data ++ ("`" : String).data) := by
      simp [failedItem, strData_append, List.append_assoc]
    rw [hdata]
    exact charsContains_middle _ _ _

/-- Witness for the amended C7 at the `hostBoom` failure. -/
theorem failed_items_contain_id_and_kind_witness :
    (("cogs.a", Category.failed ⟨ErrKind.loadError, "boom"⟩) ∈
        (reconcile hostBoom [] ["cogs.a"]).2) ∧
    (failedItem "cogs.a" ⟨ErrKind.loadError, "boom"⟩ ∈
        failedStrings (reconcile hostBoom [] ["cogs.a"]).2 ∧
      strContains (failedItem "cogs.a" ⟨ErrKind.loadError, "boom"⟩) "cogs.a" = true ∧
      strContains (failedItem "cogs.a" ⟨ErrKind.loadError, "boom"⟩)
        (kindName ErrKind.loadError) = true) :=
  ⟨by decide,
    failed_items_contain_id_and_kind hostBoom [] ["cogs.a"] "cogs.a"
      ⟨ErrKind.loadError, "boom"⟩ (by decide)⟩

/-! ## Claim C10: the `cogs list` report -/

/-- Claim C10: in the `cogs list` report, the loaded and unloaded lists are
disjoint, and every active identifier appears in the loaded list whether or
not discovery knows it. -/
theorem cogs_list_spec (fs : FileSystem) (dirs : List String) (reg : Registry)
    (loaded unloaded : List String)
    (hc : cogs_list fs dirs reg = Except.ok (loaded, unloaded)) :
    (∀ x ∈ loaded, x ∉ unloaded) ∧ ∀ ext ∈ reg, fmtTick ext ∈ loaded := by
  cases hall : get_all_extensions fs dirs with
  | error e => simp [cogs_list, hall] at hc
  | ok allExts =>
    simp only [cogs_list, hall] at hc
    injection hc with hc
    have h1 : reg.map fmtTick = loaded := congrArg Prod.fst hc
    have h2 : (allExts.filter (fun e => !decide (e ∈ reg))).map fmtTick = unloaded :=
      congrArg Prod.snd hc
    subst h1
    subst h2
    constructor
    · intro x hx hx2
      rcases List.mem_map.mp hx with ⟨a, ha, hax⟩
      rcases List.mem_map.mp hx2 with ⟨b, hb, hbx⟩
      have hbf := List.mem_filter.mp hb
      have hbr : b ∉ reg := by simpa using hbf.2
      have hab : a = b := fmtTick_inj (hax.trans hbx.symm)
      exact hbr (hab ▸ ha)
    · intro ext hext
      exact List.mem_map.mpr ⟨ext, hext, rfl⟩

/-- Witness for C10: one active identifier that discovery does not know
(`ext.outside`), one discovered-but-inactive identifier (`cogs.admin`). -/
theorem cogs_list_spec_witness :
    cogs_list fsOne ["./cogs"] ["ext.outside"] =
      Except.ok (["`ext.outside`"], ["`cogs.admin`"]) ∧
    ((∀ x ∈ ["`ext.outside`"], x ∉ (["`cogs.admin`"] : List String)) ∧
      ∀ ext ∈ (["ext.outside"] : Registry), fmtTick ext ∈ ["`ext.outside`"]) :=
  ⟨rfl, cogs_list_spec fsOne ["./cogs"] ["ext.outside"] _ _ rfl⟩

end Punchax
